import Mathlib

/-!
# Verification of the aegis-ai agent framework core

Shallow embedding of the core of the `aegis-ai` repository
(`src/aegis/core/context_manager.py`, `src/aegis/core/models.py`,
`src/aegis/core/orchestrator.py`, and the LLM planner adapters under
`src/aegis/adapters/outbound/`), together with theorems settling the
specification claims about it.

Python strings are modelled as `List Char`, Python `int` as `Int`
(with Python slice semantics made explicit), and fallible calls as
`Except`/`Option` values.  Stateful message-history mutation is modelled
by explicit list passing.
-/

/-! ## Python slicing primitives

Python list/str slicing with a possibly negative index. -/

/-- Python slice `l[k:]`: for `k ≥ 0` drop the first `k` elements (clamped);
for `k < 0` start at `max(len(l) + k, 0)`.  In particular `l[0:] = l` and
`l[-0:] = l[0:] = l`. -/
def pyDrop (l : List α) (k : Int) : List α :=
  if k < 0 then l.drop ((l.length + k).toNat) else l.drop k.toNat

/-- Python slice `l[:k]`: for `k ≥ 0` take the first `k` elements (clamped);
for `k < 0` stop at `max(len(l) + k, 0)`. -/
def pyTake (l : List α) (k : Int) : List α :=
  if k < 0 then l.take ((l.length + k).toNat) else l.take k.toNat

/-! ## `src/aegis/core/context_manager.py` -/

/-- The `ContextManager` class: the two limits set in `__init__`
(`max_history_items: int = 10`, `max_tool_output_tokens: int = 2000`). -/
structure ContextManager where
  max_history_items : Int
  max_tool_output_tokens : Int
deriving Repr, DecidableEq

/-- `ContextManager.__init__`: it only assigns the two fields (and logs).
The `Except` result type records the possibility of a constructor raising;
the source constructor performs no validation of its arguments, so it
always succeeds. -/
def ContextManager.init (max_history_items max_tool_output_tokens : Int) :
    Except String ContextManager :=
  Except.ok ⟨max_history_items, max_tool_output_tokens⟩

/-- The warning appended by `_truncate_content`:
`"\n\n" + f"... [Output truncated to approximately {max_tool_output_tokens} tokens]"`. -/
def truncMarker (tokens : Int) : List Char :=
  '\n' :: '\n' ::
    ("... [Output truncated to approximately " ++ toString tokens ++ " tokens]").toList

/-- `ContextManager._truncate_content`: with `max_chars = max_tool_output_tokens * 4`,
a string longer than `max_chars` is cut to `content[:max_chars]` and the warning
marker is appended; shorter strings are returned unchanged. -/
def ContextManager.truncateContent (cm : ContextManager) (content : List Char) : List Char :=
  if cm.max_tool_output_tokens * 4 < (content.length : Int) then
    pyTake content (cm.max_tool_output_tokens * 4) ++ truncMarker cm.max_tool_output_tokens
  else content

/-- One history entry as built by `add_tool_result`:
the dict `{"type": "tool", "name": tool_name, "content": content}`.
(Other turn shapes in the history use the same three slots, with `type`
distinguishing them; `manage` never inspects entries.) -/
structure HistTurn where
  type : String
  name : String
  content : List Char
deriving Repr, DecidableEq

/-- `ContextManager.add_tool_result` (string-output branch): appends a tool turn
whose content went through `_truncate_content`.  (A non-string output is first
converted with `str()` in the source and then takes the same path.) -/
def ContextManager.add_tool_result (cm : ContextManager) (history : List HistTurn)
    (tool_name : String) (tool_output : List Char) : List HistTurn :=
  history ++ [{ type := "tool", name := tool_name, content := cm.truncateContent tool_output }]

/-- `ContextManager.manage`:

```python
if len(history) > self.max_history_items:
    return [history[0]] + history[-(self.max_history_items - 1):]
return history
```

`none` models the `IndexError` raised by `history[0]` on an empty list
(reachable only when `max_history_items < 0`). -/
def ContextManager.manage (cm : ContextManager) (history : List α) : Option (List α) :=
  if cm.max_history_items < (history.length : Int) then
    match history with
    | [] => none
    | h0 :: _ => some (h0 :: pyDrop history (-(cm.max_history_items - 1)))
  else some history

/-- Per-turn output truncation as `add_tool_result` applies it: only tool-result
turns have their content truncated. -/
def truncTurn (cm : ContextManager) (t : HistTurn) : HistTurn :=
  if t.type = "tool" then { t with content := cm.truncateContent t.content } else t

/-- The full trim transformation of the spec (per-output truncation via
`_truncate_content`, then turn-count capping via `manage`), assembled from the
two source functions. -/
def trim (cm : ContextManager) (history : List HistTurn) : Option (List HistTurn) :=
  cm.manage (history.map (truncTurn cm))

/-! ## `src/aegis/core/models.py` -/

/-- `ToolCall`: argument values are rendered opaquely as strings; the dispatch
and error-handling logic under verification never inspects them. -/
structure ToolCall where
  id : String
  function_name : String
  function_args : List (String × String)
deriving Repr, DecidableEq

/-- `ToolResponse`. -/
structure ToolResponse where
  tool_call_id : String
  tool_name : String
  content : String
deriving Repr, DecidableEq

/-- `Message`: the optional fields mirror the pydantic model. -/
structure Message where
  role : String
  content : Option String := none
  tool_calls : Option (List ToolCall) := none
  tool_responses : Option (List ToolResponse) := none
deriving Repr, DecidableEq

/-- `Step` (the fields the orchestrator logic reads; `skill_name`,
`routine_name` and `loop_with` are only logged or belong to routine expansion). -/
structure Step where
  name : String
  type : String
  prompt : String
  function_name : String
  params : Option (List (String × String)) := none
deriving Repr, DecidableEq

/-- A Python value as `substitute_params` traverses it: a string, a dict
(association list, preserving insertion order), a list, or any other leaf
(numbers, booleans, `None`, ...) left untouched and abstracted by a tag. -/
inductive PyVal where
  | str : List Char → PyVal
  | dict : List (List Char × PyVal) → PyVal
  | list : List PyVal → PyVal
  | leaf : Int → PyVal

/-- Python `s.replace(pat, rep)`: left-to-right, non-overlapping replacement of
every occurrence.  The `pat = []` case never arises from `substitute_params`
(its patterns always contain literal braces); it is mapped to the identity. -/
def listReplace (pat rep : List Char) : List Char → List Char
  | [] => []
  | c :: rest =>
    if pat ≠ [] ∧ pat.isPrefixOf (c :: rest) then
      rep ++ listReplace pat rep ((c :: rest).drop pat.length)
    else
      c :: listReplace pat rep rest
termination_by s => s.length
decreasing_by
  · simp only [List.length_drop, List.length_cons]
    rename_i h
    have hp : pat.length ≥ 1 := by
      cases pat with
      | nil => exact absurd rfl h.1
      | cons a t => simp
    omega
  · simp

/-- The placeholder `f"{{params.{key}}}"`, i.e. the literal text
`\x7b\x7bparams.KEY\x7d\x7d`. -/
def placeholder (key : List Char) : List Char :=
  "\x7b\x7bparams.".toList ++ key ++ "\x7d\x7d".toList

/-- The string case of `substitute_params`: fold every `(key, str(value))`
pair through `str.replace`. -/
def substString (s : List Char) (params : List (List Char × List Char)) : List Char :=
  params.foldl (fun acc kv => listReplace (placeholder kv.1) kv.2 acc) s

mutual

/-- `substitute_params`: recursive placeholder substitution over a nested
structure.  Parameter values are carried in already-`str()`-rendered form. -/
def substitute_params : PyVal → List (List Char × List Char) → PyVal
  | PyVal.str s, params => PyVal.str (substString s params)
  | PyVal.dict kvs, params => PyVal.dict (substituteDict kvs params)
  | PyVal.list xs, params => PyVal.list (substituteList xs params)
  | PyVal.leaf v, _ => PyVal.leaf v

/-- The dict comprehension `{k: substitute_params(v, params) for k, v in data.items()}`. -/
def substituteDict : List (List Char × PyVal) → List (List Char × List Char) →
    List (List Char × PyVal)
  | [], _ => []
  | (k, v) :: rest, params => (k, substitute_params v params) :: substituteDict rest params

/-- The list comprehension `[substitute_params(item, params) for item in data]`. -/
def substituteList : List PyVal → List (List Char × List Char) → List PyVal
  | [], _ => []
  | x :: rest, params => substitute_params x params :: substituteList rest params

end

/-! ## `src/aegis/core/orchestrator.py` -/

/-- The value returned by an invoked tool method, as the orchestrator renders it:
a `dict` goes through `json.dumps`, anything else through `str()`. -/
inductive ToolOutcome where
  | jsonDict (s : String)
  | text (s : String)
deriving Repr, DecidableEq

/-- A tool method: keyword arguments in, a result or a raised exception
(`Except.error` carries `str(e)`) out. -/
abbrev Capability := List (String × String) → Except String ToolOutcome

/-- One adapter object, viewed through `hasattr`/`getattr`: a partial map from
method names to callables. -/
abbrev Adapter := String → Option Capability

/-- `self.tool_dispatch_map`: maps a tool name to the adapter registered for it. -/
abbrev DispatchMap := String → Option Adapter

/-- The lookup performed by both `handle_tool_calls` and `execute_skill_step`:
`adapter = self.tool_dispatch_map.get(name)` followed by
`adapter and hasattr(adapter, name)`; both failure cases land in `none`. -/
def resolveTool (dispatch : DispatchMap) (name : String) : Option Capability :=
  match dispatch name with
  | some adapter => adapter name
  | none => none

/-- `json.dumps(result) if isinstance(result, dict) else str(result) or "Success"`. -/
def renderToolContent (r : ToolOutcome) : String :=
  match r with
  | ToolOutcome.jsonDict s => s
  | ToolOutcome.text s => if s = "" then ("Success") else s

/-- The body of the `for call in tool_calls` loop of `handle_tool_calls`
for one call: dispatch, invoke, and convert any failure into an error-text
response instead of propagating it. -/
def executeToolCall (dispatch : DispatchMap) (call : ToolCall) : ToolResponse :=
  match resolveTool dispatch call.function_name with
  | some f =>
    match f call.function_args with
    | Except.ok r =>
      { tool_call_id := call.id, tool_name := call.function_name,
        content := renderToolContent r }
    | Except.error e =>
      { tool_call_id := call.id, tool_name := call.function_name,
        content := "Error: " ++ e }
  | none =>
    { tool_call_id := call.id, tool_name := call.function_name,
      content := "Error: Tool not found" }

/-- The `tool_responses` list accumulated by the loop of `handle_tool_calls`,
in call order. -/
def toolResponses (dispatch : DispatchMap) : List ToolCall → List ToolResponse
  | [] => []
  | call :: rest => executeToolCall dispatch call :: toolResponses dispatch rest

/-- The tail of `handle_tool_calls`: attach the responses to the trailing
assistant message if there is one, otherwise append a `role="tool"` message. -/
def attachResponses (messages : List Message) (responses : List ToolResponse) : List Message :=
  match messages.getLast? with
  | some m =>
    if m.role = "assistant" then
      messages.dropLast ++ [{ m with tool_responses := some responses }]
    else
      messages ++ [{ role := "tool", tool_responses := some responses }]
  | none => messages ++ [{ role := "tool", tool_responses := some responses }]

/-- `Orchestrator.handle_tool_calls`: run every call through the dispatch map
and record the batch of responses in the message history. -/
def handle_tool_calls (dispatch : DispatchMap) (tool_calls : List ToolCall)
    (messages : List Message) : List Message :=
  attachResponses messages (toolResponses dispatch tool_calls)

/-- Python `sub in s` on strings: some suffix of `s` starts with `sub`. -/
def hasSubstring : List Char → List Char → Bool
  | [], sub => sub.isEmpty
  | c :: rest, sub => sub.isPrefixOf (c :: rest) || hasSubstring rest sub

/-- Python `s.lower().strip()`: lowercase every character, then drop leading
and trailing whitespace. -/
def pyLowerStrip (s : List Char) : List Char :=
  (((s.map Char.toLower).dropWhile Char.isWhitespace).reverse.dropWhile Char.isWhitespace).reverse

/-- The keyword list of `step_requires_vision`. -/
def nonVisualKeywords : List String :=
  ["navigate to", "selector", "wait for", "paste_image", "type_text", "click", "press_key"]

/-- `step_requires_vision`: an `agent_step` needs vision iff its lowercased,
stripped prompt contains none of the non-visual keywords. -/
def step_requires_vision (step : Step) : Bool :=
  if step.type ≠ "agent_step" then false
  else !(nonVisualKeywords.any fun k =>
    hasSubstring (pyLowerStrip step.prompt.toList) k.toList)

/-- A user-role message carrying the given text. -/
def userMsg (s : String) : Message := { role := "user", content := some s }

/-- `Orchestrator.execute_skill_step`: every path appends exactly one
user-role message — an error text for a missing function, an error text for a
raised exception, or the skill's rendered result. -/
def execute_skill_step (dispatch : DispatchMap) (step : Step)
    (messages : List Message) : List Message :=
  match resolveTool dispatch step.function_name with
  | none =>
    messages ++ [userMsg ("Error: Function '" ++ step.function_name ++
      "' not found in any registered adapter.")]
  | some f =>
    match f (step.params.getD []) with
    | Except.ok r =>
      messages ++ [userMsg ("Skill '" ++ step.name ++ "' completed. Result: " ++
        (match r with
         | ToolOutcome.jsonDict s => s
         | ToolOutcome.text s => s))]
    | Except.error e =>
      messages ++ [userMsg ("Error executing skill '" ++ step.name ++ "': " ++ e)]

/-- `Orchestrator.execute_agent_step`, with the awaited
`llm_adapter.chat_completion` reply supplied as the oracle input `resp`:
append the prompt as a user message unless the step requires vision, append
the reply, and hand any proposed tool calls to `handle_tool_calls`
(`if response_message.tool_calls:` is false for both `None` and `[]`). -/
def execute_agent_step (dispatch : DispatchMap) (step : Step) (resp : Message)
    (messages : List Message) : List Message :=
  let messages1 := if step_requires_vision step then messages
    else messages ++ [{ role := "user", content := some step.prompt }]
  let messages2 := messages1 ++ [resp]
  match resp.tool_calls with
  | some calls => if calls.isEmpty then messages2 else handle_tool_calls dispatch calls messages2
  | none => messages2

/-- One step execution of a run, with the data supplied by the outside world
(the model reply of an agent step) attached.  `run_routine` steps expand into
their substituted inner steps; `human_intervention` and unknown step types
append nothing. -/
inductive StepExec where
  | agent (step : Step) (resp : Message)
  | skill (step : Step)
  | human (step : Step)
deriving Repr, DecidableEq

/-- Dispatch of `Orchestrator.execute_step` on the step type, restricted to its
effect on the message history. -/
def execute_step (dispatch : DispatchMap) (e : StepExec) (messages : List Message) :
    List Message :=
  match e with
  | StepExec.agent step resp => execute_agent_step dispatch step resp messages
  | StepExec.skill step => execute_skill_step dispatch step messages
  | StepExec.human _ => messages

/-- The message history produced by `execute_playbook`'s step loop. -/
def run_steps (dispatch : DispatchMap) (events : List StepExec)
    (messages : List Message) : List Message :=
  events.foldl (fun msgs e => execute_step dispatch e msgs) messages

/-- The model reply of an agent step carries the assistant role (true for every
chat-completion backend; non-agent steps are unconstrained). -/
def respAssistant : StepExec → Bool
  | StepExec.agent _ resp => resp.role == "assistant"
  | _ => true

/-! ## `src/aegis/adapters/outbound/google_genai_adapter.py` -/

/-- One `function_call` part of a Gemini response candidate. -/
structure GFunctionCall where
  name : String
  args : List (String × String)
deriving Repr, DecidableEq

/-- `response.candidates[0].content.parts`: each part either carries a
`function_call` or does not. -/
abbrev GResponse := List (Option GFunctionCall)

/-- One entry of the plan returned by `GoogleGenAIAdapter.generate_plan`:
`{"tool_name": ..., "tool_args": ...}`. -/
structure GToolCall where
  tool_name : String
  tool_args : List (String × String)
deriving Repr, DecidableEq

/-- The list comprehension extracting tool calls from the response parts
(`... for part in response.candidates[0].content.parts if part.function_call`).
An empty extraction is returned as the explicit empty plan. -/
def parseGeminiToolCalls (parts : GResponse) : List GToolCall :=
  parts.filterMap fun p => p.map fun fc => { tool_name := fc.name, tool_args := fc.args }

/-- One attempt of the decorated `generate_plan` body: the backend call
(`generate_content_async`, indexed by the attempt number so transient failures
can be expressed) either raises or yields response parts to parse. -/
def generatePlanAttempt (backend : Nat → Except String GResponse) (attempt : Nat) :
    Except String (List GToolCall) :=
  match backend attempt with
  | Except.error e => Except.error e
  | Except.ok parts => Except.ok (parseGeminiToolCalls parts)

/-- The tenacity `@retry(..., stop=stop_after_attempt(n))` wrapper: run the
attempt; on an exception retry (with exponential backoff between attempts)
until the remaining-retry budget is exhausted, then let the last error
propagate. -/
def retryLoop (f : Nat → Except String α) : Nat → Nat → Except String α
  | attempt, 0 => f attempt
  | attempt, Nat.succ remaining =>
    match f attempt with
    | Except.ok a => Except.ok a
    | Except.error _ => retryLoop f (attempt + 1) remaining

/-- `GoogleGenAIAdapter.generate_plan` under
`@retry(wait=wait_exponential(multiplier=2, min=5, max=60), stop=stop_after_attempt(3))`:
three attempts in total, starting at attempt 1. -/
def generate_plan_google (backend : Nat → Except String GResponse) :
    Except String (List GToolCall) :=
  retryLoop (generatePlanAttempt backend) 1 2

/-! ## `src/aegis/adapters/outbound/openai_adapter.py` -/

/-- One OpenAI tool call: its `function.arguments` JSON either parses to a
keyword map or raises `json.JSONDecodeError` (in which case the source skips
the call with `continue`). -/
structure OAToolCall where
  function_name : String
  arguments : Except String (List (String × String))

/-- `response.choices[0].message.tool_calls`: `None` or a list. -/
abbrev OAResponse := Option (List OAToolCall)

/-- One step of the plan returned by `OpenAIAdapter.generate_plan`:
`{"action": function_name, **function_args}`. -/
structure OAStep where
  action : String
  args : List (String × String)
deriving Repr, DecidableEq

/-- `OpenAIAdapter.generate_plan`: there is no retry decorator, and the
`except Exception` handler turns ANY backend failure into `return []`. -/
def generate_plan_openai (backend : Except String OAResponse) : List OAStep :=
  match backend with
  | Except.error _ => []
  | Except.ok tcs =>
    (tcs.getD []).filterMap fun tc =>
      match tc.arguments with
      | Except.error _ => none
      | Except.ok args => some { action := tc.function_name, args := args }

/-! ## The agent control loop

`src/aegis/main.py` drives `Orchestrator.run(goal)` and reads the resulting
turn history (`human`/`ai`/`tool` turns, with `finish_task` as the model's
termination signal), and the planner adapters declare the `finish_task` tool,
but the orchestrator iteration containing that run loop is not part of the
checked-in sources — `orchestrator.py` holds the later playbook-based
iteration, which has no step budget and no finish handling.  The loop is
therefore modelled from the spec (§4.6, §6, §8). -/

/-- Modelled from the spec: an `ActionCall` proposed by the Planner —
`{name: string, arguments: map[string,Any]}` (argument values rendered as
strings). -/
structure ActionCall where
  name : String
  arguments : List (String × String)
deriving Repr, DecidableEq

/-- Modelled from the spec: an `ActionResult`
`{action_name, output: string, ok: bool}`. -/
structure ActionResult where
  action_name : String
  output : String
  ok : Bool
deriving Repr, DecidableEq

/-- Modelled from the spec: the three `Turn` variants. -/
inductive Turn where
  | human (text : String)
  | plan (proposed_actions : List ActionCall)
  | result (results : List ActionResult)
deriving Repr, DecidableEq

/-- Modelled from the spec: `terminated_reason ∈
{explicit_finish, budget_exhausted, fatal_error, cancelled}` (§6). -/
inductive TerminatedReason where
  | explicit_finish
  | budget_exhausted
  | fatal_error
  | cancelled
deriving Repr, DecidableEq

/-- Modelled from the spec: `RunOutcome{final_history, summary, terminated_reason}`. -/
structure RunOutcome where
  final_history : List Turn
  summary : Option String
  terminated_reason : TerminatedReason
deriving Repr, DecidableEq

/-- The outcome of a run, together with instrumentation needed to state the
claims: the names of all capabilities the Executor invoked, and the number of
planning cycles performed (the final `steps_taken`). -/
structure LoopResult where
  outcome : RunOutcome
  invoked : List String
  planning_cycles : Nat
deriving Repr, DecidableEq

/-- Modelled from the spec: the Executor (§4.5) — resolve the name in the
registry, invoke, and convert an unknown name or a raised failure into a
failed `ActionResult` instead of propagating. -/
def executeAction (registry : String → Option (List (String × String) → Except String String))
    (a : ActionCall) : ActionResult :=
  match registry a.name with
  | none => { action_name := a.name, output := "CapabilityNotFound: " ++ a.name, ok := false }
  | some f =>
    match f a.arguments with
    | Except.ok out => { action_name := a.name, output := out, ok := true }
    | Except.error e => { action_name := a.name, output := e, ok := false }

/-- Modelled from the spec: step 1 of `trim` (§4.3) on one output —
`output[:max_output_chars] + "… [truncated]"` when the output is longer than
the cap. -/
def specTruncOutput (c : Int) (s : String) : String :=
  if c < (s.length : Int) then s.take c.toNat ++ "… [truncated]" else s

/-- Modelled from the spec: step 1 of `trim` applied to one turn — only
`ResultTurn` outputs are truncated. -/
def specTrimTurn (c : Int) : Turn → Turn
  | Turn.result rs => Turn.result (rs.map fun r => { r with output := specTruncOutput c r.output })
  | t => t

/-- Modelled from the spec: `trim(history, max_turns, max_output_chars)`
(§4.3) — truncate oversized outputs, then if the turn count exceeds
`max_turns` keep `[history'[0]] + history'[-(max_turns-1):]`. -/
def specTrim (max_turns max_output_chars : Int) (history : List Turn) : List Turn :=
  let h := history.map (specTrimTurn max_output_chars)
  if max_turns < (h.length : Int) then
    match h with
    | [] => []
    | x :: _ => x :: pyDrop h (-(max_turns - 1))
  else h

/-- Modelled from the spec: the finish sentinel action name (`finish_task`,
as declared by both planner adapters). -/
def finishSentinel : String := "finish_task"

/-- Modelled from the spec: the `PLANNING`/`EXECUTING` cycle of the Control
Loop (§4.6), from an intermediate state.  Each cycle: call the Planner on the
trimmed history and increment `steps_taken`; if the budget is reached,
terminate with `budget_exhausted` (without appending the proposal); else if
the proposal is empty, terminate (implicit finish — reported as
`budget_exhausted`, the enum of §6 having no dedicated reason, per the §8
scenario); else if a proposed action is named with the finish sentinel,
append a `PlanTurn` holding only that action and terminate with
`explicit_finish` carrying its `summary` argument; else append the
`PlanTurn`, execute every action in order, append the `ResultTurn`, and loop. -/
def runFrom (planner : List Turn → List ActionCall)
    (registry : String → Option (List (String × String) → Except String String))
    (max_turns max_output_chars : Int)
    (history : List Turn) (steps_taken max_steps : Nat)
    (invoked : List String) : LoopResult :=
  let actions := planner (specTrim max_turns max_output_chars history)
  if h1 : max_steps ≤ steps_taken + 1 then
    ⟨⟨history, none, TerminatedReason.budget_exhausted⟩, invoked, steps_taken + 1⟩
  else if actions.isEmpty then
    ⟨⟨history, none, TerminatedReason.budget_exhausted⟩, invoked, steps_taken + 1⟩
  else
    match actions.find? (fun a => a.name == finishSentinel) with
    | some fa =>
      ⟨⟨history ++ [Turn.plan [fa]], List.lookup ("summary") fa.arguments,
        TerminatedReason.explicit_finish⟩, invoked, steps_taken + 1⟩
    | none =>
      runFrom planner registry max_turns max_output_chars
        (history ++ [Turn.plan actions, Turn.result (actions.map (executeAction registry))])
        (steps_taken + 1) max_steps
        (invoked ++ actions.map ActionCall.name)
termination_by max_steps - steps_taken
decreasing_by omega

/-- Modelled from the spec: `StartRun` (§6) — start in `PLANNING` with
`steps_taken = 0` on the single-turn history holding the goal. -/
def start_run (planner : List Turn → List ActionCall)
    (registry : String → Option (List (String × String) → Except String String))
    (max_turns max_output_chars : Int)
    (goal : String) (max_steps : Nat) : LoopResult :=
  runFrom planner registry max_turns max_output_chars [Turn.human goal] 0 max_steps []

/-! ## Concrete instances used by witnesses and counterexamples -/

/-- A dispatch map with one adapter exposing one always-raising method
(`boom` raises `"kaput"`); every other name is unregistered. -/
def dispatchW : DispatchMap := fun name =>
  if name = "boom" then
    some (fun attr => if attr = "boom" then some (fun _ => Except.error ("kaput")) else none)
  else none

/-- A scripted planner that always proposes one non-finish action. -/
def plannerW : List Turn → List ActionCall := fun _ =>
  [{ name := "click", arguments := [("selector", "#save")] }]

/-- A scripted planner that proposes a non-finish action followed by the
finish action. -/
def plannerF : List Turn → List ActionCall := fun _ =>
  [{ name := "click", arguments := [("selector", "#save")] },
   { name := "finish_task", arguments := [("summary", "done")] }]

/-- A model backend that fails transiently on the first two attempts and
succeeds on the third. -/
def backendW : Nat → Except String GResponse := fun attempt =>
  if attempt ≤ 2 then Except.error ("503 Service Unavailable")
  else Except.ok [some { name := "navigate", args := [("url", "https://example.com")] }, none]

/-- Two consecutive vision-requiring agent steps whose model replies are plain
assistant messages. -/
def visionEvents : List StepExec :=
  [StepExec.agent ⟨"s1", "agent_step", "examine the current page", "", none⟩
     ⟨"assistant", some ("r1"), none, none⟩,
   StepExec.agent ⟨"s2", "agent_step", "describe the dashboard", "", none⟩
     ⟨"assistant", some ("r2"), none, none⟩]

/-- A non-vision agent step proposing one tool call, followed by a skill step. -/
def eventsW : List StepExec :=
  [StepExec.agent ⟨"s1", "agent_step", "click the save button", "", none⟩
     ⟨"assistant", none, some [⟨"1", "click", [("selector", "#save")]⟩], none⟩,
   StepExec.skill ⟨"s2", "skill_step", "", "take_screenshot", none⟩]

/-- A three-turn history whose middle tool output exceeds the 4-character cap
of a `max_tool_output_tokens = 1` configuration. -/
def historyW : List HistTurn :=
  [{ type := "human", name := "", content := "goal".toList },
   { type := "tool", name := "fetch", content := "abcdefgh".toList },
   { type := "tool", name := "read", content := "xy".toList }]

/-! ## Helper lemmas -/

theorem pyTake_of_nonneg (l : List α) (k : Int) (hk : 0 ≤ k) : pyTake l k = l.take k.toNat := by
  rw [pyTake, if_neg (by omega)]

theorem pyDrop_subset (l : List α) (k : Int) : pyDrop l k ⊆ l := by
  rw [pyDrop]
  split
  · exact List.drop_subset _ _
  · exact List.drop_subset _ _

theorem truncMarker_length_pos (t : Int) : 0 < (truncMarker t).length := by
  simp [truncMarker]

theorem truncate_of_lt (cm : ContextManager) (h0 : 0 ≤ cm.max_tool_output_tokens)
    (s : List Char) (hlt : cm.max_tool_output_tokens * 4 < (s.length : Int)) :
    cm.truncateContent s =
      s.take (cm.max_tool_output_tokens * 4).toNat ++ truncMarker cm.max_tool_output_tokens := by
  rw [ContextManager.truncateContent, if_pos hlt,
    pyTake_of_nonneg _ _ (by positivity)]

theorem truncate_of_le (cm : ContextManager) (s : List Char)
    (hle : (s.length : Int) ≤ cm.max_tool_output_tokens * 4) :
    cm.truncateContent s = s := by
  rw [ContextManager.truncateContent, if_neg (by omega)]

theorem take_maxChars_length (cm : ContextManager)
    (s : List Char) (hlt : cm.max_tool_output_tokens * 4 < (s.length : Int)) :
    (s.take (cm.max_tool_output_tokens * 4).toNat).length =
      (cm.max_tool_output_tokens * 4).toNat := by
  rw [List.length_take]
  exact min_eq_left (Int.toNat_le.mpr (le_of_lt hlt))

theorem truncateContent_idem (cm : ContextManager) (h0 : 0 ≤ cm.max_tool_output_tokens)
    (s : List Char) : cm.truncateContent (cm.truncateContent s) = cm.truncateContent s := by
  by_cases hlt : cm.max_tool_output_tokens * 4 < (s.length : Int)
  · rw [truncate_of_lt cm h0 s hlt]
    have hn := take_maxChars_length cm s hlt
    have hlen2 : (((s.take (cm.max_tool_output_tokens * 4).toNat ++
        truncMarker cm.max_tool_output_tokens).length : Int)) =
        cm.max_tool_output_tokens * 4 + (truncMarker cm.max_tool_output_tokens).length := by
      rw [List.length_append, hn]
      push_cast
      rw [Int.toNat_of_nonneg (by positivity)]
    rw [truncate_of_lt cm h0 _ (by
      rw [hlen2]
      have := truncMarker_length_pos cm.max_tool_output_tokens
      omega)]
    congr 1
    have htl := List.take_left (s.take (cm.max_tool_output_tokens * 4).toNat)
      (truncMarker cm.max_tool_output_tokens)
    rwa [hn] at htl
  · rw [truncate_of_le cm s (by omega), truncate_of_le cm s (by omega)]

theorem truncTurn_idem (cm : ContextManager) (h0 : 0 ≤ cm.max_tool_output_tokens)
    (t : HistTurn) : truncTurn cm (truncTurn cm t) = truncTurn cm t := by
  by_cases h : t.type = "tool"
  · simp [truncTurn, h, truncateContent_idem cm h0]
  · simp [truncTurn, h]

theorem truncTurn_fixed (cm : ContextManager) (h0 : 0 ≤ cm.max_tool_output_tokens)
    {l : List HistTurn} {y : HistTurn} (hy : y ∈ l.map (truncTurn cm)) :
    truncTurn cm y = y := by
  obtain ⟨x, -, rfl⟩ := List.mem_map.mp hy
  exact truncTurn_idem cm h0 x

theorem map_truncTurn_idem (cm : ContextManager) (h0 : 0 ≤ cm.max_tool_output_tokens)
    (l : List HistTurn) :
    (l.map (truncTurn cm)).map (truncTurn cm) = l.map (truncTurn cm) := by
  rw [List.map_map]
  apply List.map_congr_left
  intro x _
  simpa using truncTurn_idem cm h0 x

theorem manage_of_le (cm : ContextManager) (l : List α)
    (hle : (l.length : Int) ≤ cm.max_history_items) : cm.manage l = some l := by
  rw [ContextManager.manage.eq_def, if_neg (by omega)]

theorem manage_cons_of_lt (cm : ContextManager) (x : α) (rest : List α)
    (hlt : cm.max_history_items < ((x :: rest).length : Int)) :
    cm.manage (x :: rest) =
      some (x :: pyDrop (x :: rest) (-(cm.max_history_items - 1))) := by
  rw [ContextManager.manage.eq_def, if_pos hlt]

/-! ## Claim C9 — constructor-time validation of the turn cap -/

/-- Claim C9, amended: constructing the context manager never fails — the
constructor performs no validation at all and stores any `max_history_items`
(including values below 1) unchanged; the configuration is accepted, not
rejected. -/
theorem context_manager_init_never_rejects (m t : Int) :
    ContextManager.init m t = Except.ok ⟨m, t⟩ := rfl

/-- Claim C9, counterexample: constructing with `max_history_items = 0 < 1`
succeeds (no fail-fast rejection happens), contradicting the claim that such a
configuration is rejected at configuration time. -/
theorem context_manager_init_accepts_cap_below_one :
    ContextManager.init 0 2000 = Except.ok ⟨0, 2000⟩ ∧ (0 : Int) < 1 :=
  ⟨rfl, by decide⟩

/-! ## Claim C4 — goal retention under turn-count capping -/

/-- Claim C4, failing input: with `max_history_items = 1` and a two-turn
history, `manage` returns the first turn followed by the ENTIRE history
(`history[-(1-1):]` is `history[0:]`, the whole list), not the first turn
followed by the last `1 - 1 = 0` turns as the claim (and the code's own
comment) state. -/
theorem manage_duplicates_goal_at_cap_one :
    ContextManager.manage ⟨1, 2000⟩ (["goal", "turn2"] : List String) =
      some ["goal", "goal", "turn2"] ∧
    (["goal", "goal", "turn2"] : List String) ≠ ["goal"] := by decide

/-! ## Claim C6 — output truncation bounds -/

/-- Claim C6: with the configured character limit `max_tool_output_tokens * 4`,
an output strictly longer than the limit is stored as the prefix of exactly
that length followed by the truncation marker — so its total length is at most
the limit plus the marker's length and the marker is present — while an output
at or below the limit is stored unchanged; `add_tool_result` appends exactly
the truncated content. -/
theorem truncate_content_bounds (cm : ContextManager) (h0 : 0 ≤ cm.max_tool_output_tokens)
    (s : List Char) :
    ((cm.max_tool_output_tokens * 4 < (s.length : Int)) →
      cm.truncateContent s =
        s.take (cm.max_tool_output_tokens * 4).toNat ++ truncMarker cm.max_tool_output_tokens ∧
      (s.take (cm.max_tool_output_tokens * 4).toNat).length =
        (cm.max_tool_output_tokens * 4).toNat ∧
      (cm.truncateContent s).length ≤
        (cm.max_tool_output_tokens * 4).toNat + (truncMarker cm.max_tool_output_tokens).length ∧
      (∃ p, cm.truncateContent s = p ++ truncMarker cm.max_tool_output_tokens)) ∧
    (((s.length : Int) ≤ cm.max_tool_output_tokens * 4) → cm.truncateContent s = s) ∧
    (∀ (history : List HistTurn) (nm : String),
      cm.add_tool_result history nm s = history ++ [⟨"tool", nm, cm.truncateContent s⟩]) := by
  refine ⟨fun hlt => ?_, fun hle => truncate_of_le cm s hle, fun history nm => rfl⟩
  have heq := truncate_of_lt cm h0 s hlt
  have hn := take_maxChars_length cm s hlt
  refine ⟨heq, hn, ?_, ⟨_, heq⟩⟩
  rw [heq, List.length_append, hn]

/-- Claim C6, witness: an 8-character output against a 4-character limit
(`max_tool_output_tokens = 1`) is stored as the 4-character prefix plus the
marker, and a 2-character output is stored unchanged. -/
theorem truncate_content_bounds_witness :
    ContextManager.truncateContent ⟨10, 1⟩ ("abcdefgh".toList) =
      "abcd".toList ++ truncMarker 1 ∧
    ContextManager.truncateContent ⟨10, 1⟩ ("ab".toList) = "ab".toList := by
  constructor
  · have hq := (truncate_content_bounds ⟨10, 1⟩ (by decide) ("abcdefgh".toList)).1 (by decide)
    rw [hq.1]
    decide
  · exact (truncate_content_bounds ⟨10, 1⟩ (by decide) ("ab".toList)).2.1 (by decide)

/-! ## Claim C5 — idempotence of trimming -/

/-- Claim C5, amended: the trim transformation (per-output truncation followed
by turn-count capping) is idempotent for every turn cap of at least 2 and every
nonnegative token cap: if one application yields a history view, applying it
again yields the same view.  (At `max_history_items = 1` idempotence fails,
see the counterexample.) -/
theorem trim_idempotent (cm : ContextManager) (hm : 2 ≤ cm.max_history_items)
    (h0 : 0 ≤ cm.max_tool_output_tokens) (h h2 : List HistTurn)
    (he : trim cm h = some h2) : trim cm h2 = some h2 := by
  rw [trim] at he ⊢
  by_cases hlen : cm.max_history_items < ((h.map (truncTurn cm)).length : Int)
  · rcases hmap : h.map (truncTurn cm) with _ | ⟨x, rest⟩
    · rw [hmap] at hlen
      simp at hlen
      omega
    · rw [hmap] at hlen he
      rw [manage_cons_of_lt cm x rest hlen] at he
      obtain rfl : x :: pyDrop (x :: rest) (-(cm.max_history_items - 1)) = h2 :=
        Option.some.inj he
      have hsub : ∀ y ∈ x :: pyDrop (x :: rest) (-(cm.max_history_items - 1)),
          y ∈ h.map (truncTurn cm) := by
        intro y hy
        rw [hmap]
        rcases List.mem_cons.mp hy with rfl | hy2
        · exact List.mem_cons_self y rest
        · exact pyDrop_subset (x :: rest) _ hy2
      have hfix : ∀ y ∈ x :: pyDrop (x :: rest) (-(cm.max_history_items - 1)),
          truncTurn cm y = y := fun y hy => truncTurn_fixed cm h0 (hsub y hy)
      have hmapfix : (x :: pyDrop (x :: rest) (-(cm.max_history_items - 1))).map (truncTurn cm)
          = x :: pyDrop (x :: rest) (-(cm.max_history_items - 1)) := by
        rw [show (x :: pyDrop (x :: rest) (-(cm.max_history_items - 1))).map (truncTurn cm)
            = (x :: pyDrop (x :: rest) (-(cm.max_history_items - 1))).map id from
          List.map_congr_left (fun a ha => hfix a ha), List.map_id]
      rw [hmapfix]
      have hdlen : ((x :: pyDrop (x :: rest) (-(cm.max_history_items - 1))).length : Int) =
          cm.max_history_items := by
        have hneg : -(cm.max_history_items - 1) < 0 := by omega
        rw [List.length_cons, pyDrop, if_pos hneg, List.length_drop]
        have hlen2 : (cm.max_history_items : Int) < ((x :: rest).length : Int) := hlen
        push_cast
        omega
      exact manage_of_le cm _ (by omega)
  · rw [manage_of_le cm _ (by omega)] at he
    obtain rfl : h.map (truncTurn cm) = h2 := Option.some.inj he
    rw [map_truncTurn_idem cm h0 h]
    exact manage_of_le cm _ (by omega)

/-- Claim C5, witness: a three-turn history against `max_history_items = 2`
and `max_tool_output_tokens = 1` trims to a two-turn view, and trimming that
view again leaves it unchanged. -/
theorem trim_idempotent_witness :
    trim ⟨2, 1⟩ historyW =
      some [⟨"human", "", "goal".toList⟩, ⟨"tool", "read", "xy".toList⟩] ∧
    trim ⟨2, 1⟩ [⟨"human", "", "goal".toList⟩, ⟨"tool", "read", "xy".toList⟩] =
      some [⟨"human", "", "goal".toList⟩, ⟨"tool", "read", "xy".toList⟩] := by
  refine ⟨by decide, ?_⟩
  exact trim_idempotent ⟨2, 1⟩ (by decide) (by decide) historyW _ (by decide)

/-- Claim C5, counterexample: at turn cap `max_history_items = 1` trimming is
not idempotent — a two-turn history trims to a three-turn view, and trimming
that view again yields a different, four-turn view. -/
theorem trim_not_idempotent_at_cap_one :
    trim ⟨1, 2000⟩ [⟨"tool", "t", "a".toList⟩, ⟨"tool", "t", "b".toList⟩] =
      some [⟨"tool", "t", "a".toList⟩, ⟨"tool", "t", "a".toList⟩, ⟨"tool", "t", "b".toList⟩] ∧
    trim ⟨1, 2000⟩
        [⟨"tool", "t", "a".toList⟩, ⟨"tool", "t", "a".toList⟩, ⟨"tool", "t", "b".toList⟩] =
      some [⟨"tool", "t", "a".toList⟩, ⟨"tool", "t", "a".toList⟩, ⟨"tool", "t", "a".toList⟩,
        ⟨"tool", "t", "b".toList⟩] ∧
    ([⟨"tool", "t", "a".toList⟩, ⟨"tool", "t", "a".toList⟩,
        ⟨"tool", "t", "b".toList⟩] : List HistTurn) ≠
      [⟨"tool", "t", "a".toList⟩, ⟨"tool", "t", "a".toList⟩, ⟨"tool", "t", "a".toList⟩,
        ⟨"tool", "t", "b".toList⟩] := by decide

/-! ## Claim C10 — parameter substitution with the empty map -/

mutual

theorem substAux_nil : ∀ d : PyVal, substitute_params d [] = d
  | PyVal.str s => by rw [substitute_params, substString]; rfl
  | PyVal.dict kvs => by rw [substitute_params, substDictAux_nil kvs]
  | PyVal.list xs => by rw [substitute_params, substListAux_nil xs]
  | PyVal.leaf v => by rw [substitute_params]

theorem substDictAux_nil : ∀ l : List (List Char × PyVal), substituteDict l [] = l
  | [] => by rw [substituteDict]
  | (k, v) :: rest => by rw [substituteDict, substAux_nil v, substDictAux_nil rest]

theorem substListAux_nil : ∀ l : List PyVal, substituteList l [] = l
  | [] => by rw [substituteList]
  | x :: rest => by rw [substituteList, substAux_nil x, substListAux_nil rest]

end

/-- Claim C10: substituting with the empty parameter map is the identity on
every value — dict keys, list structure and every leaf are preserved
unchanged. -/
theorem substitute_params_empty_identity (d : PyVal) : substitute_params d [] = d :=
  substAux_nil d

/-! ## Claim C2 — failure isolation in the executing phase -/

theorem toolResponses_eq_map (dispatch : DispatchMap) (calls : List ToolCall) :
    toolResponses dispatch calls = calls.map (executeToolCall dispatch) := by
  induction calls with
  | nil => rfl
  | cons c rest ih => rw [toolResponses, List.map_cons, ih]

theorem skill_step_appends_user (dispatch : DispatchMap) (step : Step)
    (messages : List Message) :
    ∃ u : Message, execute_skill_step dispatch step messages = messages ++ [u] ∧
      u.role = "user" := by
  rcases hres : resolveTool dispatch step.function_name with - | f
  · simp only [execute_skill_step, hres]
    exact ⟨_, rfl, rfl⟩
  · rcases hcall : f (step.params.getD []) with r | e
    · simp only [execute_skill_step, hres, hcall]
      exact ⟨_, rfl, rfl⟩
    · simp only [execute_skill_step, hres, hcall]
      exact ⟨_, rfl, rfl⟩

theorem attachResponses_records (messages : List Message) (responses : List ToolResponse) :
    ∃ m ∈ attachResponses messages responses, m.tool_responses = some responses := by
  rcases hl : messages.getLast? with - | m
  · simp only [attachResponses, hl]
    exact ⟨⟨"tool", none, none, some responses⟩, by simp, rfl⟩
  · by_cases hr : m.role = "assistant"
    · simp only [attachResponses, hl, if_pos hr]
      exact ⟨{ m with tool_responses := some responses }, by simp, rfl⟩
    · simp only [attachResponses, hl, if_neg hr]
      exact ⟨⟨"tool", none, none, some responses⟩, by simp, rfl⟩

/-- Claim C2: for every batch of tool calls, the executing phase produces
exactly one response per call in order (execution is total — nothing
propagates out of the loop); a call whose name resolves to no registered
capability yields the `"Error: Tool not found"` response, a call whose
invocation raises `e` yields the `"Error: " ++ e` response; the responses
are recorded in the message history, and a skill step likewise converts both
of its failure cases into an appended message rather than propagating. -/
theorem handle_tool_calls_isolates_failures (dispatch : DispatchMap) (calls : List ToolCall)
    (messages : List Message) :
    toolResponses dispatch calls = calls.map (executeToolCall dispatch) ∧
    (toolResponses dispatch calls).length = calls.length ∧
    (∀ c : ToolCall, resolveTool dispatch c.function_name = none →
      executeToolCall dispatch c =
        ⟨c.id, c.function_name, "Error: Tool not found"⟩) ∧
    (∀ (c : ToolCall) (f : Capability) (e : String),
      resolveTool dispatch c.function_name = some f → f c.function_args = Except.error e →
      executeToolCall dispatch c = ⟨c.id, c.function_name, "Error: " ++ e⟩) ∧
    (∃ m ∈ handle_tool_calls dispatch calls messages,
      m.tool_responses = some (toolResponses dispatch calls)) ∧
    (∀ step : Step, ∃ u : Message,
      execute_skill_step dispatch step messages = messages ++ [u] ∧ u.role = "user") := by
  refine ⟨toolResponses_eq_map dispatch calls,
    by rw [toolResponses_eq_map, List.length_map], ?_, ?_, ?_, ?_⟩
  · intro c hnone
    rw [executeToolCall, hnone]
  · intro c f e hsome herr
    simp only [executeToolCall, hsome, herr]
  · exact attachResponses_records messages (toolResponses dispatch calls)
  · exact fun step => skill_step_appends_user dispatch step messages

/-- Claim C2, witness: against a registry with one always-raising tool, an
unknown tool name and a raising invocation both become error-text responses. -/
theorem handle_tool_calls_isolates_failures_witness :
    executeToolCall dispatchW ⟨"1", "ghost", []⟩ =
      ⟨"1", "ghost", "Error: Tool not found"⟩ ∧
    executeToolCall dispatchW ⟨"2", "boom", []⟩ =
      ⟨"2", "boom", "Error: kaput"⟩ := by
  constructor
  · exact (handle_tool_calls_isolates_failures dispatchW [] []).2.2.1 _ rfl
  · exact (handle_tool_calls_isolates_failures dispatchW [] []).2.2.2.1 _
      (fun _ => Except.error ("kaput")) "kaput" rfl rfl

/-! ## Claim C7 — alternation of the message history -/

theorem execute_agent_step_mem (dispatch : DispatchMap) (step : Step) (resp : Message)
    (messages : List Message) (hr : resp.role = "assistant") :
    ∀ m ∈ execute_agent_step dispatch step resp messages,
      m ∈ messages ∨ m.role = "user" ∨ m.role = "assistant" := by
  intro m hm
  have hm1 : ∀ y ∈ (if step_requires_vision step then messages
      else messages ++ [{ role := "user", content := some step.prompt }]),
      y ∈ messages ∨ y.role = "user" := by
    intro y hy
    split at hy
    · exact Or.inl hy
    · rcases List.mem_append.mp hy with h | h
      · exact Or.inl h
      · right
        simp at h
        rw [h]
  simp only [execute_agent_step] at hm
  rcases hcalls : resp.tool_calls with - | calls
  · simp only [hcalls] at hm
    rcases List.mem_append.mp hm with h | h
    · rcases hm1 m h with h1 | h1
      · exact Or.inl h1
      · exact Or.inr (Or.inl h1)
    · simp at h
      rw [h]
      exact Or.inr (Or.inr hr)
  · simp only [hcalls] at hm
    by_cases hemp : calls.isEmpty
    · rw [if_pos hemp] at hm
      rcases List.mem_append.mp hm with h | h
      · rcases hm1 m h with h1 | h1
        · exact Or.inl h1
        · exact Or.inr (Or.inl h1)
      · simp at h
        rw [h]
        exact Or.inr (Or.inr hr)
    · rw [if_neg hemp] at hm
      simp only [handle_tool_calls, attachResponses, List.getLast?_concat, if_pos hr,
        List.dropLast_concat] at hm
      rcases List.mem_append.mp hm with h | h
      · rcases hm1 m h with h1 | h1
        · exact Or.inl h1
        · exact Or.inr (Or.inl h1)
      · simp at h
        rw [h]
        exact Or.inr (Or.inr hr)

theorem run_steps_roles (dispatch : DispatchMap) (events : List StepExec) :
    ∀ messages : List Message,
      (∀ e ∈ events, respAssistant e = true) →
      (∀ m ∈ messages, m.role ≠ "tool") →
      ∀ m ∈ run_steps dispatch events messages, m.role ≠ "tool" := by
  induction events with
  | nil =>
    intro msgs _ hm m hmem
    rw [run_steps, List.foldl_nil] at hmem
    exact hm m hmem
  | cons e rest ih =>
    intro msgs hro hm m hmem
    rw [run_steps, List.foldl_cons] at hmem
    refine ih (execute_step dispatch e msgs)
      (fun x hx => hro x (List.mem_cons_of_mem e hx)) ?_ m hmem
    cases e with
    | agent st resp =>
      have hr : resp.role = "assistant" := by
        have := hro _ (List.mem_cons_self _ _)
        simpa [respAssistant] using this
      intro x hx
      rcases execute_agent_step_mem dispatch st resp msgs hr x hx with h | h | h
      · exact hm x h
      · rw [h]
        decide
      · rw [h]
        decide
    | skill st =>
      intro x hx
      obtain ⟨u, hequ, hrole⟩ := skill_step_appends_user dispatch st msgs
      simp only [execute_step] at hx
      rw [hequ] at hx
      rcases List.mem_append.mp hx with h | h
      · exact hm x h
      · simp at h
        rw [h, hrole]
        decide
    | human st =>
      intro x hx
      simp only [execute_step] at hx
      exact hm x hx

theorem chain'_of_no_tool (l : List Message) (h : ∀ m ∈ l, m.role ≠ "tool") :
    List.Chain' (fun a b : Message => ¬(a.role = "tool" ∧ b.role = "tool")) l := by
  induction l with
  | nil => exact List.chain'_nil
  | cons a t ih =>
    rw [List.chain'_cons']
    exact ⟨fun b _ hc => h a (by simp) hc.1,
      ih (fun m hm => h m (List.mem_cons_of_mem a hm))⟩

/-- Claim C7, amended: in every run whose model replies carry the assistant
role, the message history never contains two consecutive tool-result
(`role = "tool"`) messages — indeed no standalone tool-role message is ever
appended, because tool responses are attached to the assistant message that
proposed them.  The other half of the claimed alternation fails: two
consecutive assistant messages (PlanTurns) can occur, because a
vision-requiring agent step appends no user prompt before the reply (see the
counterexample). -/
theorem run_steps_no_consecutive_tool_messages (dispatch : DispatchMap) (events : List StepExec)
    (hro : ∀ e ∈ events, respAssistant e = true) :
    List.Chain' (fun a b : Message => ¬(a.role = "tool" ∧ b.role = "tool"))
      (run_steps dispatch events []) :=
  chain'_of_no_tool _ (run_steps_roles dispatch events [] hro (by simp))

/-- Claim C7, witness: a run with a tool-calling agent step followed by a
skill step satisfies the no-consecutive-tool-messages property. -/
theorem run_steps_no_consecutive_tool_messages_witness :
    (∀ e ∈ eventsW, respAssistant e = true) ∧
    List.Chain' (fun a b : Message => ¬(a.role = "tool" ∧ b.role = "tool"))
      (run_steps (fun _ => none) eventsW []) :=
  ⟨by decide, run_steps_no_consecutive_tool_messages (fun _ => none) eventsW (by decide)⟩

/-- Claim C7, counterexample: two consecutive vision-requiring agent steps
produce a history of two adjacent assistant messages (two consecutive
PlanTurns with no user or result message between them), so the claimed strict
`Human → Plan → Result` alternation does not hold. -/
theorem run_steps_consecutive_assistant_messages :
    run_steps (fun _ => none) visionEvents [] =
      [⟨"assistant", some ("r1"), none, none⟩, ⟨"assistant", some ("r2"), none, none⟩] ∧
    ¬ List.Chain' (fun a b : Message => ¬(a.role = "assistant" ∧ b.role = "assistant"))
      (run_steps (fun _ => none) visionEvents []) := by
  have heq : run_steps (fun _ => none) visionEvents [] =
      [⟨"assistant", some ("r1"), none, none⟩, ⟨"assistant", some ("r2"), none, none⟩] := by
    decide
  refine ⟨heq, ?_⟩
  rw [heq]
  intro hch
  rcases List.chain'_cons.mp hch with ⟨hr, -⟩
  exact hr ⟨rfl, rfl⟩

/-! ## Claim C8 — planner retry and error propagation -/

/-- Claim C8, amended: the Google GenAI planner adapter retries its model call
(with exponential backoff between attempts) up to 3 attempts in total,
returning the first successful plan, and once all 3 attempts have failed the
last error propagates out of the adapter (fatal to the run); the OpenAI
planner adapter, by contrast, performs no retry and converts ANY backend
failure into the empty plan instead of propagating it. -/
theorem planner_retry_and_propagation (backend : Nat → Except String GResponse) :
    (∀ parts, backend 1 = Except.ok parts →
      generate_plan_google backend = Except.ok (parseGeminiToolCalls parts)) ∧
    (∀ e1 parts, backend 1 = Except.error e1 → backend 2 = Except.ok parts →
      generate_plan_google backend = Except.ok (parseGeminiToolCalls parts)) ∧
    (∀ e1 e2 parts, backend 1 = Except.error e1 → backend 2 = Except.error e2 →
      backend 3 = Except.ok parts →
      generate_plan_google backend = Except.ok (parseGeminiToolCalls parts)) ∧
    (∀ e1 e2 e3, backend 1 = Except.error e1 → backend 2 = Except.error e2 →
      backend 3 = Except.error e3 →
      generate_plan_google backend = Except.error e3) ∧
    (∀ e : String, generate_plan_openai (Except.error e) = []) := by
  refine ⟨?_, ?_, ?_, ?_, fun e => rfl⟩
  · intro parts h1
    simp [generate_plan_google, retryLoop, generatePlanAttempt, h1]
  · intro e1 parts h1 h2
    simp [generate_plan_google, retryLoop, generatePlanAttempt, h1, h2]
  · intro e1 e2 parts h1 h2 h3
    simp [generate_plan_google, retryLoop, generatePlanAttempt, h1, h2, h3]
  · intro e1 e2 e3 h1 h2 h3
    simp [generate_plan_google, retryLoop, generatePlanAttempt, h1, h2, h3]

/-- Claim C8, witness: a backend failing on its first two attempts and
succeeding on the third yields the successful plan after the in-adapter
retries. -/
theorem planner_retry_and_propagation_witness :
    backendW 1 = Except.error ("503 Service Unavailable") ∧
    backendW 2 = Except.error ("503 Service Unavailable") ∧
    backendW 3 = Except.ok [some ⟨"navigate", [("url", "https://example.com")]⟩, none] ∧
    generate_plan_google backendW =
      Except.ok [⟨"navigate", [("url", "https://example.com")]⟩] := by
  refine ⟨rfl, rfl, rfl, ?_⟩
  have h := (planner_retry_and_propagation backendW).2.2.1 ("503 Service Unavailable")
    ("503 Service Unavailable") [some ⟨"navigate", [("url", "https://example.com")]⟩, none]
    rfl rfl rfl
  rw [h]
  rfl

/-- Claim C8, counterexample: the OpenAI planner adapter converts a failing
backend call into the empty plan `[]` — the error is swallowed, not retried
and not propagated to the control loop, contradicting the claim for this
planner. -/
theorem openai_swallows_failure_to_empty_plan :
    generate_plan_openai (Except.error ("APIConnectionError")) = ([] : List OAStep) := rfl

/-! ## Claim C1 — bounded termination of the control loop -/

theorem runFrom_budget_aux (planner : List Turn → List ActionCall)
    (registry : String → Option (List (String × String) → Except String String))
    (tn tc : Int) (N : Nat)
    (hne : ∀ h : List Turn, planner h ≠ [])
    (hnf : ∀ (h : List Turn) (a : ActionCall), a ∈ planner h → a.name ≠ finishSentinel) :
    ∀ (gas : Nat) (hist : List Turn) (s : Nat) (inv : List String), s < N → N - s ≤ gas →
      (runFrom planner registry tn tc hist s N inv).outcome.terminated_reason =
          TerminatedReason.budget_exhausted ∧
      (runFrom planner registry tn tc hist s N inv).planning_cycles = N := by
  intro gas
  induction gas with
  | zero => intro hist s inv hs hgas; omega
  | succ g ih =>
    intro hist s inv hs hgas
    rw [runFrom]
    by_cases hb : N ≤ s + 1
    · rw [dif_pos hb]
      exact ⟨rfl, show s + 1 = N by omega⟩
    · rw [dif_neg hb]
      rw [if_neg (by simp [List.isEmpty_iff, hne (specTrim tn tc hist)])]
      have hfind : (planner (specTrim tn tc hist)).find?
          (fun a => a.name == finishSentinel) = none := by
        rw [List.find?_eq_none]
        intro a ha
        simpa using hnf _ a ha
      simp only [hfind]
      exact ih _ (s + 1) _ (by omega) (by omega)

/-- Claim C1, amended: for every step budget `N ≥ 1`, a run whose planner on
every cycle proposes at least one action and never the finish action
terminates after exactly `N` planning cycles (one `steps_taken` increment per
planning call) with `terminated_reason = budget_exhausted`.  (A planner that
can return an empty proposal also never proposes finish but terminates
earlier via the implicit-finish branch, see the counterexample; hence the
added nonemptiness condition.) -/
theorem start_run_budget_exhausted_exact (planner : List Turn → List ActionCall)
    (registry : String → Option (List (String × String) → Except String String))
    (tn tc : Int) (goal : String) (N : Nat) (hN : 1 ≤ N)
    (hne : ∀ h : List Turn, planner h ≠ [])
    (hnf : ∀ (h : List Turn) (a : ActionCall), a ∈ planner h → a.name ≠ finishSentinel) :
    (start_run planner registry tn tc goal N).outcome.terminated_reason =
        TerminatedReason.budget_exhausted ∧
    (start_run planner registry tn tc goal N).planning_cycles = N :=
  runFrom_budget_aux planner registry tn tc N hne hnf N [Turn.human goal] 0 []
    (by omega) (by omega)

/-- Claim C1, witness: with budget 3 and a planner always proposing one
non-finish `click` action, the run ends with `budget_exhausted` after exactly
3 planning cycles. -/
theorem start_run_budget_exhausted_exact_witness :
    ((1 : Nat) ≤ 3) ∧
    (start_run plannerW (fun _ => none) 10 2000 ("click Save") 3).outcome.terminated_reason =
        TerminatedReason.budget_exhausted ∧
    (start_run plannerW (fun _ => none) 10 2000 ("click Save") 3).planning_cycles = 3 := by
  refine ⟨by decide, ?_⟩
  exact start_run_budget_exhausted_exact plannerW (fun _ => none) 10 2000 ("click Save") 3
    (by decide)
    (fun h => by simp [plannerW])
    (fun h a ha => by
      simp [plannerW] at ha
      rw [ha]
      decide)

/-- Claim C1, counterexample: a planner that always returns the empty proposal
never proposes the finish action, yet with budget `N = 2` the run terminates
after exactly 1 planning cycle (the implicit-finish branch), not after
`N = 2` cycles as the claim states. -/
theorem start_run_empty_plan_terminates_early :
    start_run (fun _ => []) (fun _ => none) 10 2000 ("goal") 2 =
      ⟨⟨[Turn.human ("goal")], none, TerminatedReason.budget_exhausted⟩, [], 1⟩ ∧
    (1 : Nat) ≠ 2 := by
  constructor
  · rw [start_run, runFrom]
    simp [specTrim]
  · decide

/-! ## Claim C3 — explicit finish handling -/

/-- Claim C3, amended: in every planning cycle that does not exhaust the step
budget (`steps_taken + 1 < max_steps`) and whose proposed actions contain a
finish-sentinel action (`find?` returning the first one), the loop appends a
`PlanTurn` containing only that action, invokes no capability (the invocation
trace is unchanged), terminates with `explicit_finish`, and exposes the
action's `summary` argument as the run's outcome.  (In a cycle that also
exhausts the budget, the budget check wins, see the counterexample; hence the
added budget condition.) -/
theorem runFrom_explicit_finish (planner : List Turn → List ActionCall)
    (registry : String → Option (List (String × String) → Except String String))
    (tn tc : Int) (hist : List Turn) (s N : Nat) (inv : List String) (fa : ActionCall)
    (hb : s + 1 < N)
    (hf : (planner (specTrim tn tc hist)).find? (fun a => a.name == finishSentinel) = some fa) :
    runFrom planner registry tn tc hist s N inv =
      ⟨⟨hist ++ [Turn.plan [fa]], List.lookup ("summary") fa.arguments,
        TerminatedReason.explicit_finish⟩, inv, s + 1⟩ := by
  rw [runFrom]
  have hne : ¬ (planner (specTrim tn tc hist)).isEmpty := by
    have := List.mem_of_find?_eq_some hf
    intro hemp
    rw [List.isEmpty_iff] at hemp
    simp [hemp] at this
  simp [hf, hne, Nat.not_le.mpr hb]

/-- Claim C3, witness: a planner proposing `click` then `finish_task` with
`summary = "done"` within a budget of 3 makes the first cycle append the
plan turn holding only the finish action, invoke nothing, and end the run
with `explicit_finish` and summary `"done"`. -/
theorem runFrom_explicit_finish_witness :
    runFrom plannerF (fun _ => none) 10 2000 [Turn.human ("g")] 0 3 [] =
      ⟨⟨[Turn.human ("g"), Turn.plan [⟨"finish_task", [("summary", "done")]⟩]], some ("done"),
        TerminatedReason.explicit_finish⟩, [], 1⟩ := by
  have h := runFrom_explicit_finish plannerF (fun _ => none) 10 2000 [Turn.human ("g")] 0 3 []
    ⟨"finish_task", [("summary", "done")]⟩ (by decide) (by rfl)
  rw [h]
  rfl

/-- Claim C3, counterexample: with `max_steps = 1` and a planner proposing the
finish action on its first cycle, the budget check fires first — the run ends
with `budget_exhausted`, no `PlanTurn` is appended, and no summary is exposed,
contradicting the claim for that planning phase. -/
theorem finish_at_budget_boundary :
    start_run (fun _ => [⟨"finish_task", [("summary", "done")]⟩]) (fun _ => none)
        10 2000 ("g") 1 =
      ⟨⟨[Turn.human ("g")], none, TerminatedReason.budget_exhausted⟩, [], 1⟩ ∧
    TerminatedReason.budget_exhausted ≠ TerminatedReason.explicit_finish := by
  constructor
  · rw [start_run, runFrom]
    simp
  · decide
